import Mathlib

/-
Verification of the pre-packed-weight caching and serialization layer of the
onnxruntime repository (files core/framework/prepacked_weights_container.{h,cc}
and core/framework/tensor_external_data_info.{h,cc}).

C++ unordered maps are embedded as association lists (`List (α × β)`), looked
up by first match; insertion of a fresh key appends at the end (the hash-map
iteration order is not observable by any verified property).  References and
iterators into a map are embedded as the (immutable) key of the entry they
denote.  Machine integers are embedded as `Int`/`Nat`; fatal failures
(`ORT_ENFORCE`, thrown exceptions, error `Status` returns) are embedded as
`Option`/`Except` error results.
-/

namespace OnnxPrepacked

/-- Association-list lookup: value of the first entry whose key equals `k`.
Embeds `unordered_map::find` / `::at`. -/
def alookup {α β : Type} [DecidableEq α] : List (α × β) → α → Option β
  | [], _ => none
  | (k', v') :: rest, k => if k' = k then some v' else alookup rest k

/-- Association-list insert-or-assign: replaces the value of the first entry
with key `k`, or appends a fresh entry when `k` is absent.  Embeds
`unordered_map::insert_or_assign` (and `operator[]` followed by assignment). -/
def aupsert {α β : Type} [DecidableEq α] : List (α × β) → α → β → List (α × β)
  | [], k, v => [(k, v)]
  | (k', v') :: rest, k, v =>
      if k' = k then (k, v) :: rest else (k', v') :: aupsert rest k v

/-- Association-list erase of all entries with key `k` (on a map whose keys
are distinct this is `unordered_map::erase`). -/
def aerase {α β : Type} [DecidableEq α] (m : List (α × β)) (k : α) : List (α × β) :=
  m.filter (fun p => p.1 ≠ k)

/-- Opaque packed-weight payload.  In the C++ source `PrePackedWeights` owns
raw buffers; this subsystem never inspects them, so the payload is embedded as
an opaque tag. -/
structure PrePackedWeights where
  tag : Nat
deriving DecidableEq

/-- Embeds `PrepackedWeightsContainer` (prepacked_weights_container.h): the
shared cross-session cache.  Only the key-to-blob map is relevant to the
verified properties; the allocator map is independent state. -/
structure PrepackedWeightsContainer where
  prepacked_weights_map : List (String × PrePackedWeights)
deriving DecidableEq

namespace PrepackedWeightsContainer

/-- Embeds `PrepackedWeightsContainer::WriteWeight` (.cc lines 38-41):
`insert` only inserts when the key is absent and reports whether insertion
took place; the returned pair is (inserted?, updated container). -/
def WriteWeight (c : PrepackedWeightsContainer) (key : String)
    (packed_weight : PrePackedWeights) : Bool × PrepackedWeightsContainer :=
  match alookup c.prepacked_weights_map key with
  | some _ => (false, c)
  | none => (true, ⟨c.prepacked_weights_map ++ [(key, packed_weight)]⟩)

/-- Embeds `PrepackedWeightsContainer::GetWeight` (.cc lines 33-36); `.at`
throws on an absent key, embedded as `none`. -/
def GetWeight (c : PrepackedWeightsContainer) (key : String) : Option PrePackedWeights :=
  alookup c.prepacked_weights_map key

/-- Embeds `PrepackedWeightsContainer::HasWeight` (.cc lines 43-46). -/
def HasWeight (c : PrepackedWeightsContainer) (key : String) : Bool :=
  (alookup c.prepacked_weights_map key).isSome

/-- Embeds `PrepackedWeightsContainer::GetNumberOfElements` (.cc lines 48-50). -/
def GetNumberOfElements (c : PrepackedWeightsContainer) : Nat :=
  c.prepacked_weights_map.length

end PrepackedWeightsContainer

theorem alookup_append_right {α β : Type} [DecidableEq α] (m : List (α × β)) (k : α) (v : β) :
    alookup m k = none → alookup (m ++ [(k, v)]) k = some v := by
  induction m with
  | nil => intro _; simp [alookup]
  | cons p rest ih =>
      intro h
      simp only [alookup] at h ⊢
      by_cases hk : p.1 = k
      · rw [if_pos hk] at h; exact absurd h (by simp)
      · rw [if_neg hk] at h ⊢
        exact ih h

theorem alookup_append_left {α β : Type} [DecidableEq α] (m : List (α × β)) (k k' : α) (v : β) :
    k' ≠ k → alookup (m ++ [(k, v)]) k' = alookup m k' := by
  induction m with
  | nil => intro h; simp [alookup, Ne.symm h]
  | cons p rest ih =>
      intro h
      simp only [alookup]
      by_cases hk : p.1 = k'
      · rw [if_pos hk, if_pos hk]
      · rw [if_neg hk, if_neg hk]
        exact ih h

/-- C1: after a first `WriteWeight(k, b)` on a container without `k`, a second
`WriteWeight(k, b2)` returns false and leaves the container untouched (so
`GetWeight k` still yields `b` and `GetNumberOfElements` is unchanged); and
on any container whatsoever, `WriteWeight` of an already present key returns
false and never overwrites the existing entry. -/
theorem writeWeight_first_write_wins
    (c : PrepackedWeightsContainer) (k : String) (b b2 : PrePackedWeights)
    (habs : c.HasWeight k = false) :
    ((c.WriteWeight k b).1 = true ∧
     (((c.WriteWeight k b).2.WriteWeight k b2).1 = false ∧
      ((c.WriteWeight k b).2.WriteWeight k b2).2 = (c.WriteWeight k b).2 ∧
      (((c.WriteWeight k b).2.WriteWeight k b2).2.GetWeight k = some b) ∧
      (((c.WriteWeight k b).2.WriteWeight k b2).2.GetNumberOfElements =
        (c.WriteWeight k b).2.GetNumberOfElements))) ∧
    (∀ c' : PrepackedWeightsContainer, c'.HasWeight k = true →
      (c'.WriteWeight k b2).1 = false ∧ (c'.WriteWeight k b2).2 = c') := by
  constructor
  · have hnone : alookup c.prepacked_weights_map k = none := by
      simp only [PrepackedWeightsContainer.HasWeight] at habs
      exact Option.not_isSome_iff_eq_none.mp (by simp [habs])
    have hw1 : c.WriteWeight k b =
        (true, ⟨c.prepacked_weights_map ++ [(k, b)]⟩) := by
      simp only [PrepackedWeightsContainer.WriteWeight, hnone]
    have hlk : alookup (c.prepacked_weights_map ++ [(k, b)]) k = some b :=
      alookup_append_right _ _ _ hnone
    rw [hw1]
    simp [PrepackedWeightsContainer.WriteWeight, PrepackedWeightsContainer.GetWeight,
      PrepackedWeightsContainer.GetNumberOfElements, hlk]
  · intro c' hpres
    simp only [PrepackedWeightsContainer.HasWeight] at hpres
    obtain ⟨v, hv⟩ := Option.isSome_iff_exists.mp hpres
    simp [PrepackedWeightsContainer.WriteWeight, hv]

/-- C1 witness: the theorem instantiated on a concrete container. -/
theorem writeWeight_first_write_wins_witness :
    ((PrepackedWeightsContainer.mk []).HasWeight "k" = false) ∧
    ((((PrepackedWeightsContainer.mk []).WriteWeight "k" ⟨1⟩).2.WriteWeight "k" ⟨2⟩).2.GetWeight "k"
      = some ⟨1⟩) := by
  refine ⟨by decide, ?_⟩
  exact (writeWeight_first_write_wins ⟨[]⟩ "k" ⟨1⟩ ⟨2⟩ (by decide)).1.2.2.2.1

/-- Embeds `PrepackedForSerialization::Subgraph` (prepacked_weights_container.h
lines 103-153): a tree node holding the save-mode flag, the weight-name index
(weight name to list of references into the shared key-to-blob map, embedded
as the keys of the referenced entries), and the lazily created children keyed
by the identity of the nested `Graph` object (embedded as `Nat`). -/
inductive Subgraph : Type where
  | node : Bool → List (String × List String) → List (Nat × Subgraph) → Subgraph

/-- Field `save_mode_on_` of `Subgraph`. -/
def Subgraph.save_mode_on : Subgraph → Bool
  | .node b _ _ => b

/-- Field `weight_to_pre_packs_` of `Subgraph`. -/
def Subgraph.weight_to_pre_packs : Subgraph → List (String × List String)
  | .node _ w _ => w

/-- Field `subgraph_prepacks_` of `Subgraph`. -/
def Subgraph.subgraph_prepacks : Subgraph → List (Nat × Subgraph)
  | .node _ _ ch => ch

/-- Shared key-to-blob map type (`PrepackedForSerialization::KeyToBlobMap`). -/
abbrev KeyToBlobMap : Type := List (String × PrePackedWeights)

/-- Embeds `Subgraph::GetOrCreateSubgraph` (.h lines 115-121): returns the
existing child for `graph`, or creates one inheriting the current save-mode
flag (the child also receives the same shared-map reference, which is implicit
in this embedding: the map lives once in `PrepackedForSerialization`).
Returns (updated node, returned child). -/
def Subgraph.GetOrCreateSubgraph (n : Subgraph) (graph : Nat) : Subgraph × Subgraph :=
  match alookup n.subgraph_prepacks graph with
  | some c => (n, c)
  | none =>
      let child := Subgraph.node n.save_mode_on [] []
      (Subgraph.node n.save_mode_on n.weight_to_pre_packs
        (n.subgraph_prepacks ++ [(graph, child)]), child)

/-- Embeds `Subgraph::GetSubgraph` (.h lines 123-126): non-creating lookup. -/
def Subgraph.GetSubgraph (n : Subgraph) (graph : Nat) : Option Subgraph :=
  alookup n.subgraph_prepacks graph

/-- Embeds `Subgraph::SetSaveMode` (.h lines 142-144). -/
def Subgraph.SetSaveMode (n : Subgraph) (value : Bool) : Subgraph :=
  Subgraph.node value n.weight_to_pre_packs n.subgraph_prepacks

/-- Embeds `Subgraph::IsSaveModeOn` (.h lines 138-140). -/
def Subgraph.IsSaveModeOn (n : Subgraph) : Bool :=
  n.save_mode_on

/-- Embeds `Subgraph::InsertFromDisk` (.cc lines 58-61): `emplace` into the
shared key-to-blob map, `ORT_ENFORCE` that insertion happened (`none` embeds
the fatal DuplicateKey failure).  The method body touches only the shared
map, no node-local field. -/
def Subgraph.InsertFromDisk (kb : KeyToBlobMap) (key : String)
    (packed_weight : PrePackedWeights) : Option KeyToBlobMap :=
  match alookup kb key with
  | some _ => none
  | none => some (kb ++ [(key, packed_weight)])

/-- Embeds `unordered_map::insert_or_assign` as used by `CreateOrOverWrite`:
returns (fresh insertion?, updated map); the returned iterator is embedded as
the key of the entry it denotes. -/
def insert_or_assign (kb : KeyToBlobMap) (key : String) (w : PrePackedWeights) :
    Bool × KeyToBlobMap :=
  ((alookup kb key).isNone, aupsert kb key w)

/-- Node-local part of `Subgraph::CreateOrOverWrite` (.cc line 68):
`weight_to_pre_packs_[weight_name].push_back(result.first)` — appends the
reference (embedded as the key) to the weight name's list, default-creating
the list when absent. -/
def Subgraph.pushPrePack (n : Subgraph) (weight_name key : String) : Subgraph :=
  Subgraph.node n.save_mode_on
    (aupsert n.weight_to_pre_packs weight_name
      (((alookup n.weight_to_pre_packs weight_name).getD []) ++ [key]))
    n.subgraph_prepacks

/-- Embeds `Subgraph::CreateOrOverWrite` (.cc lines 63-70): insert-or-assign
into the shared map, always append the entry reference onto the weight name's
list, return whether the map slot was a fresh insertion.  Result is
(fresh insertion?, updated shared map, updated node). -/
def Subgraph.CreateOrOverWrite (kb : KeyToBlobMap) (n : Subgraph)
    (weight_name key : String) (packed_weight : PrePackedWeights) :
    Bool × KeyToBlobMap × Subgraph :=
  let r := insert_or_assign kb key packed_weight
  (r.1, r.2, n.pushPrePack weight_name key)

/-- Embeds `Subgraph::GetPrepackedWeights` (.cc lines 72-86): non-failing
lookup, reads only the shared map. -/
def Subgraph.GetPrepackedWeightsImpl (kb : KeyToBlobMap) (key : String) :
    Option PrePackedWeights :=
  alookup kb key

/-- Embeds `PrepackedForSerialization` (.h lines 86-177): the single shared
key-to-blob map (field `key_to_blobs_`, common to all subgraphs) and the root
`main_graph_`.  The constructor (.cc lines 52-54) builds the root with parent
`nullptr`, the shared map, and save mode off. -/
structure PrepackedForSerialization where
  key_to_blobs : KeyToBlobMap
  main_graph : Subgraph

/-- Embeds the `PrepackedForSerialization` constructor (.cc lines 52-54). -/
def PrepackedForSerialization.init : PrepackedForSerialization :=
  ⟨[], Subgraph.node false [] []⟩

/-- Addresses the tree node reached from `n` by following child identities in
`path`; `none` when no such descendant exists. -/
def getNode : Subgraph → List Nat → Option Subgraph
  | n, [] => some n
  | n, g :: rest =>
      match alookup n.subgraph_prepacks g with
      | some c => getNode c rest
      | none => none

/-- Applies `f` to the tree node addressed by `path`, leaving every other
node unchanged (identity when the path does not exist). -/
def updateAt (f : Subgraph → Subgraph) : List Nat → Subgraph → Subgraph
  | [], n => f n
  | g :: rest, n =>
      Subgraph.node n.save_mode_on n.weight_to_pre_packs
        (n.subgraph_prepacks.map
          (fun p => if p.1 = g then (p.1, updateAt f rest p.2) else p))

/-- Embeds `PrepackedForSerialization::GetNumberOfKeyedBlobs` (.h 163-165). -/
def PrepackedForSerialization.GetNumberOfKeyedBlobs (p : PrepackedForSerialization) : Nat :=
  p.key_to_blobs.length

/-- `Subgraph::InsertFromDisk` invoked through any node of the tree: the
method touches only the tree's shared map, so the tree of nodes is returned
unchanged; `none` embeds the fatal DuplicateKey failure. -/
def PrepackedForSerialization.InsertFromDisk (p : PrepackedForSerialization)
    (key : String) (w : PrePackedWeights) : Option PrepackedForSerialization :=
  (Subgraph.InsertFromDisk p.key_to_blobs key w).map (fun kb => ⟨kb, p.main_graph⟩)

/-- `Subgraph::CreateOrOverWrite` invoked on the tree node addressed by
`path`: updates the shared map and that node's weight-name index; `none` when
no such node exists. -/
def PrepackedForSerialization.CreateOrOverWrite (p : PrepackedForSerialization)
    (path : List Nat) (weight_name key : String) (w : PrePackedWeights) :
    Option (Bool × PrepackedForSerialization) :=
  match getNode p.main_graph path with
  | none => none
  | some _ =>
      let r := insert_or_assign p.key_to_blobs key w
      some (r.1, ⟨r.2, updateAt (fun m => m.pushPrePack weight_name key) path p.main_graph⟩)

/-- `Subgraph::GetPrepackedWeights` invoked through the tree node addressed by
`path`: `none` when no such node exists, otherwise the shared-map lookup. -/
def PrepackedForSerialization.GetPrepackedWeights (p : PrepackedForSerialization)
    (path : List Nat) (key : String) : Option (Option PrePackedWeights) :=
  (getNode p.main_graph path).map (fun _ => Subgraph.GetPrepackedWeightsImpl p.key_to_blobs key)

theorem alookup_aupsert_self {α β : Type} [DecidableEq α] (m : List (α × β)) (k : α) (v : β) :
    alookup (aupsert m k v) k = some v := by
  induction m with
  | nil => simp [aupsert, alookup]
  | cons p rest ih =>
      simp only [aupsert]
      by_cases hk : p.1 = k
      · rw [if_pos hk]; simp [alookup]
      · rw [if_neg hk]; simp only [alookup, if_neg hk]; exact ih

theorem alookup_aupsert_ne {α β : Type} [DecidableEq α] (m : List (α × β)) (k k' : α) (v : β)
    (h : k' ≠ k) : alookup (aupsert m k v) k' = alookup m k' := by
  induction m with
  | nil => simp [aupsert, alookup, Ne.symm h]
  | cons p rest ih =>
      simp only [aupsert]
      by_cases hk : p.1 = k
      · rw [if_pos hk]
        simp only [alookup]
        rw [if_neg (Ne.symm h), if_neg (fun hh : p.1 = k' => h (hh ▸ hk))]
      · rw [if_neg hk]
        simp only [alookup]
        by_cases hk' : p.1 = k'
        · rw [if_pos hk', if_pos hk']
        · rw [if_neg hk', if_neg hk']
          exact ih

theorem aupsert_map_fst {α β : Type} [DecidableEq α] (m : List (α × β)) (k : α) (v : β) :
    (aupsert m k v).map Prod.fst =
      if (alookup m k).isSome then m.map Prod.fst else m.map Prod.fst ++ [k] := by
  induction m with
  | nil => simp [aupsert, alookup]
  | cons p rest ih =>
      obtain ⟨a, b⟩ := p
      by_cases hk : a = k
      · simp [aupsert, alookup, hk]
      · simp only [aupsert, alookup, if_neg hk, List.map_cons, ih]
        by_cases hs : (alookup rest k).isSome
        · rw [if_pos hs, if_pos hs]
        · rw [if_neg hs, if_neg hs]
          simp

theorem alookup_eq_none_iff {α β : Type} [DecidableEq α] (m : List (α × β)) (k : α) :
    alookup m k = none ↔ k ∉ m.map Prod.fst := by
  induction m with
  | nil => simp [alookup]
  | cons p rest ih =>
      simp only [alookup, List.map_cons, List.mem_cons]
      by_cases hk : p.1 = k
      · rw [if_pos hk]; simp [hk]
      · rw [if_neg hk]
        simp only [ih]
        constructor
        · intro h hmem
          rcases hmem with h1 | h2
          · exact hk h1.symm
          · exact h h2
        · intro h
          exact fun h2 => h (Or.inr h2)

/-- C2: `CreateOrOverWrite(w, k, b)` stores `b` under `k` in the shared map
(fresh insertion or overwrite), leaves other keys alone, returns true exactly
when the map slot was a fresh insertion, and always appends the reference to
the entry (embedded as its key) onto `w`'s list in the weight-name index; in
particular two calls for the same weight name with distinct keys leave both
keys present with their respective blobs and the index listing both. -/
theorem createOrOverWrite_spec (kb : KeyToBlobMap) (n : Subgraph)
    (wname key : String) (w : PrePackedWeights) :
    ((Subgraph.CreateOrOverWrite kb n wname key w).1 = true ↔ alookup kb key = none) ∧
    alookup (Subgraph.CreateOrOverWrite kb n wname key w).2.1 key = some w ∧
    (∀ k', k' ≠ key →
      alookup (Subgraph.CreateOrOverWrite kb n wname key w).2.1 k' = alookup kb k') ∧
    alookup (Subgraph.CreateOrOverWrite kb n wname key w).2.2.weight_to_pre_packs wname =
      some (((alookup n.weight_to_pre_packs wname).getD []) ++ [key]) ∧
    (∀ k2 w2, k2 ≠ key →
      alookup (Subgraph.CreateOrOverWrite (Subgraph.CreateOrOverWrite kb n wname key w).2.1
          (Subgraph.CreateOrOverWrite kb n wname key w).2.2 wname k2 w2).2.1 key = some w ∧
      alookup (Subgraph.CreateOrOverWrite (Subgraph.CreateOrOverWrite kb n wname key w).2.1
          (Subgraph.CreateOrOverWrite kb n wname key w).2.2 wname k2 w2).2.1 k2 = some w2 ∧
      alookup (Subgraph.CreateOrOverWrite (Subgraph.CreateOrOverWrite kb n wname key w).2.1
          (Subgraph.CreateOrOverWrite kb n wname key w).2.2 wname k2 w2).2.2.weight_to_pre_packs
          wname =
        some (((alookup n.weight_to_pre_packs wname).getD []) ++ [key, k2])) := by
  simp only [Subgraph.CreateOrOverWrite, insert_or_assign, Subgraph.pushPrePack,
    Subgraph.weight_to_pre_packs]
  refine ⟨?_, ?_, ?_, ?_, ?_⟩
  · simp [Option.isNone_iff_eq_none]
  · exact alookup_aupsert_self _ _ _
  · intro k' hk'
    exact alookup_aupsert_ne _ _ _ _ hk'
  · exact alookup_aupsert_self _ _ _
  · intro k2 w2 hne
    refine ⟨?_, ?_, ?_⟩
    · rw [alookup_aupsert_ne _ _ _ _ (Ne.symm hne)]
      exact alookup_aupsert_self _ _ _
    · exact alookup_aupsert_self _ _ _
    · rw [alookup_aupsert_self]
      rw [alookup_aupsert_self]
      simp

/-- C2 witness: the theorem instantiated on an empty shared map and a fresh
node, with the two keys of the spec's example. -/
theorem createOrOverWrite_spec_witness :
    ("k2" ≠ "k1") ∧
    alookup (Subgraph.CreateOrOverWrite
        (Subgraph.CreateOrOverWrite [] (Subgraph.node false [] []) "W" "k1" ⟨1⟩).2.1
        (Subgraph.CreateOrOverWrite [] (Subgraph.node false [] []) "W" "k1" ⟨1⟩).2.2
        "W" "k2" ⟨2⟩).2.2.weight_to_pre_packs "W" = some ["k1", "k2"] :=
  ⟨by decide,
    ((createOrOverWrite_spec [] (Subgraph.node false [] []) "W" "k1" ⟨1⟩).2.2.2.2
      "k2" ⟨2⟩ (by decide)).2.2⟩

/-- C9: `InsertFromDisk(k, blob)` fails fatally (DuplicateKey, embedded as
`none`) when `k` is already present in the tree's shared key-to-blob map; when
`k` is absent it inserts the blob under `k` and leaves the whole tree of nodes
(hence every per-weight index) untouched. -/
theorem insertFromDisk_spec (p : PrepackedForSerialization) (key : String)
    (w : PrePackedWeights) :
    (∀ v, alookup p.key_to_blobs key = some v → p.InsertFromDisk key w = none) ∧
    (alookup p.key_to_blobs key = none →
      p.InsertFromDisk key w = some ⟨p.key_to_blobs ++ [(key, w)], p.main_graph⟩ ∧
      alookup (p.key_to_blobs ++ [(key, w)]) key = some w) := by
  constructor
  · intro v hv
    simp [PrepackedForSerialization.InsertFromDisk, Subgraph.InsertFromDisk, hv]
  · intro h
    refine ⟨?_, alookup_append_right _ _ _ h⟩
    simp [PrepackedForSerialization.InsertFromDisk, Subgraph.InsertFromDisk, h]

/-- C9 witness: a duplicate key is rejected; a fresh key is inserted with the
tree untouched. -/
theorem insertFromDisk_spec_witness :
    (PrepackedForSerialization.mk [("k", ⟨1⟩)] (Subgraph.node false [] [])).InsertFromDisk
        "k" ⟨5⟩ = none ∧
    (PrepackedForSerialization.mk [] (Subgraph.node false [] [])).InsertFromDisk "k" ⟨5⟩ =
      some ⟨[("k", ⟨5⟩)], Subgraph.node false [] []⟩ :=
  ⟨(insertFromDisk_spec ⟨[("k", ⟨1⟩)], Subgraph.node false [] []⟩ "k" ⟨5⟩).1 ⟨1⟩ rfl,
   ((insertFromDisk_spec ⟨[], Subgraph.node false [] []⟩ "k" ⟨5⟩).2 rfl).1⟩

/-- C7: all nodes of one `PrepackedForSerialization` tree share the single
key-to-blob map: a blob inserted via `InsertFromDisk` or via
`CreateOrOverWrite` through any node is retrievable via
`GetPrepackedWeights(key)` through every node of the resulting tree; both
operations preserve distinctness of the map's keys (so
`GetNumberOfKeyedBlobs` counts each distinct key once) and never erase an
existing entry. -/
theorem shared_blob_map_spec :
    (∀ (p : PrepackedForSerialization) (key : String) (w : PrePackedWeights)
        (p' : PrepackedForSerialization),
      p.InsertFromDisk key w = some p' →
      (∀ path : List Nat, (getNode p'.main_graph path).isSome →
        p'.GetPrepackedWeights path key = some (some w)) ∧
      ((p.key_to_blobs.map Prod.fst).Nodup → (p'.key_to_blobs.map Prod.fst).Nodup) ∧
      (∀ k v, alookup p.key_to_blobs k = some v → (alookup p'.key_to_blobs k).isSome)) ∧
    (∀ (p : PrepackedForSerialization) (path0 : List Nat) (wname key : String)
        (w : PrePackedWeights) (b : Bool) (p' : PrepackedForSerialization),
      p.CreateOrOverWrite path0 wname key w = some (b, p') →
      (∀ path : List Nat, (getNode p'.main_graph path).isSome →
        p'.GetPrepackedWeights path key = some (some w)) ∧
      ((p.key_to_blobs.map Prod.fst).Nodup → (p'.key_to_blobs.map Prod.fst).Nodup) ∧
      (∀ k v, alookup p.key_to_blobs k = some v → (alookup p'.key_to_blobs k).isSome)) ∧
    (∀ p : PrepackedForSerialization, (p.key_to_blobs.map Prod.fst).Nodup →
      p.GetNumberOfKeyedBlobs = (p.key_to_blobs.map Prod.fst).dedup.length) := by
  refine ⟨?_, ?_, ?_⟩
  · intro p key w p' hp'
    cases h : alookup p.key_to_blobs key with
    | some v =>
        exfalso
        simp [PrepackedForSerialization.InsertFromDisk, Subgraph.InsertFromDisk, h] at hp'
    | none =>
        simp only [PrepackedForSerialization.InsertFromDisk, Subgraph.InsertFromDisk, h,
          Option.map_some', Option.some.injEq] at hp'
        have hkb : p'.key_to_blobs = p.key_to_blobs ++ [(key, w)] := by
          rw [← hp']
        have hlk : alookup p'.key_to_blobs key = some w := by
          rw [hkb]; exact alookup_append_right _ _ _ h
        refine ⟨?_, ?_, ?_⟩
        · intro path hpath
          obtain ⟨nd, hnd⟩ := Option.isSome_iff_exists.mp hpath
          simp [PrepackedForSerialization.GetPrepackedWeights, hnd,
            Subgraph.GetPrepackedWeightsImpl, hlk]
        · intro hnodup
          rw [hkb]
          simp only [List.map_append, List.map_cons, List.map_nil]
          rw [List.nodup_append]
          refine ⟨hnodup, List.nodup_singleton _, ?_⟩
          intro a ha hmem
          rcases List.mem_singleton.mp hmem with rfl
          exact (alookup_eq_none_iff _ _).mp h ha
        · intro k v hkv
          rw [hkb]
          by_cases hk : k = key
          · subst hk
            rw [alookup_append_right _ _ _ h]
            rfl
          · rw [alookup_append_left _ _ _ _ hk, hkv]
            rfl
  · intro p path0 wname key w b p' hp'
    cases hn : getNode p.main_graph path0 with
    | none =>
        exfalso
        simp [PrepackedForSerialization.CreateOrOverWrite, hn] at hp'
    | some nd0 =>
        simp only [PrepackedForSerialization.CreateOrOverWrite, hn, insert_or_assign,
          Option.some.injEq, Prod.mk.injEq] at hp'
        have hkb : p'.key_to_blobs = aupsert p.key_to_blobs key w := by
          rw [← hp'.2]
        have hlk : alookup p'.key_to_blobs key = some w := by
          rw [hkb]; exact alookup_aupsert_self _ _ _
        refine ⟨?_, ?_, ?_⟩
        · intro path hpath
          obtain ⟨nd, hnd⟩ := Option.isSome_iff_exists.mp hpath
          simp [PrepackedForSerialization.GetPrepackedWeights, hnd,
            Subgraph.GetPrepackedWeightsImpl, hlk]
        · intro hnodup
          rw [hkb, aupsert_map_fst]
          by_cases hs : (alookup p.key_to_blobs key).isSome
          · rw [if_pos hs]; exact hnodup
          · rw [if_neg hs]
            rw [List.nodup_append]
            refine ⟨hnodup, List.nodup_singleton _, ?_⟩
            intro a ha hmem
            rcases List.mem_singleton.mp hmem with rfl
            exact (alookup_eq_none_iff _ _).mp
              (Option.not_isSome_iff_eq_none.mp hs) ha
        · intro k v hkv
          rw [hkb]
          by_cases hk : k = key
          · subst hk
            rw [alookup_aupsert_self]
            rfl
          · rw [alookup_aupsert_ne _ _ _ _ hk, hkv]
            rfl
  · intro p hnodup
    rw [List.Nodup.dedup hnodup, List.length_map]
    rfl

/-- C7 witness: a blob written through the child node at identity 7 is
retrievable through the main graph node. -/
theorem shared_blob_map_spec_witness :
    (PrepackedForSerialization.mk []
        (Subgraph.node false [] [(7, Subgraph.node false [] [])])).CreateOrOverWrite
        [7] "W" "k" ⟨3⟩ =
      some (true, ⟨[("k", ⟨3⟩)],
        Subgraph.node false [] [(7, Subgraph.node false [("W", ["k"])] [])]⟩) ∧
    (PrepackedForSerialization.mk [("k", ⟨3⟩)]
        (Subgraph.node false [] [(7, Subgraph.node false [("W", ["k"])] [])])).GetPrepackedWeights
        [] "k" = some (some ⟨3⟩) := by
  refine ⟨rfl, ?_⟩
  exact (shared_blob_map_spec.2.1
    ⟨[], Subgraph.node false [] [(7, Subgraph.node false [] [])]⟩ [7] "W" "k" ⟨3⟩ true
    ⟨[("k", ⟨3⟩)], Subgraph.node false [] [(7, Subgraph.node false [("W", ["k"])] [])]⟩
    rfl).1 [] rfl

/-- C8: `GetOrCreateSubgraph` is idempotent (a second call with the same graph
identity returns the same child and leaves the node unchanged); two distinct
identities yield two children stored under their own keys; a freshly created
child inherits the node's save-mode flag as it is at creation time; and a
later `SetSaveMode` on the node leaves the already created children (hence
their flags) untouched. -/
theorem getOrCreateSubgraph_spec (n : Subgraph) (g g2 : Nat)
    (hg : alookup n.subgraph_prepacks g = none)
    (hg2 : alookup n.subgraph_prepacks g2 = none) (hne : g ≠ g2) :
    (∀ (m : Subgraph) (gr : Nat),
      (m.GetOrCreateSubgraph gr).1.GetOrCreateSubgraph gr = m.GetOrCreateSubgraph gr) ∧
    (n.GetOrCreateSubgraph g).2 = Subgraph.node n.save_mode_on [] [] ∧
    alookup ((n.GetOrCreateSubgraph g).1.GetOrCreateSubgraph g2).1.subgraph_prepacks g =
      some (n.GetOrCreateSubgraph g).2 ∧
    alookup ((n.GetOrCreateSubgraph g).1.GetOrCreateSubgraph g2).1.subgraph_prepacks g2 =
      some ((n.GetOrCreateSubgraph g).1.GetOrCreateSubgraph g2).2 ∧
    ((n.GetOrCreateSubgraph g).1.GetOrCreateSubgraph g2).2 =
      Subgraph.node n.save_mode_on [] [] ∧
    (∀ b : Bool, ((n.SetSaveMode b).GetOrCreateSubgraph g).2 = Subgraph.node b [] []) ∧
    (∀ b : Bool, ((n.GetOrCreateSubgraph g).1.SetSaveMode b).subgraph_prepacks =
      (n.GetOrCreateSubgraph g).1.subgraph_prepacks) := by
  have hacc : ∀ (b : Bool) (w : List (String × List String)) (ch : List (Nat × Subgraph)),
      (Subgraph.node b w ch).subgraph_prepacks = ch := fun _ _ _ => rfl
  have hsm : ∀ (b : Bool) (w : List (String × List String)) (ch : List (Nat × Subgraph)),
      (Subgraph.node b w ch).save_mode_on = b := fun _ _ _ => rfl
  have hwt : ∀ (b : Bool) (w : List (String × List String)) (ch : List (Nat × Subgraph)),
      (Subgraph.node b w ch).weight_to_pre_packs = w := fun _ _ _ => rfl
  have h1 : n.GetOrCreateSubgraph g =
      (Subgraph.node n.save_mode_on n.weight_to_pre_packs
        (n.subgraph_prepacks ++ [(g, Subgraph.node n.save_mode_on [] [])]),
       Subgraph.node n.save_mode_on [] []) := by
    simp [Subgraph.GetOrCreateSubgraph, hg]
  have hlk2 : alookup (n.subgraph_prepacks ++ [(g, Subgraph.node n.save_mode_on [] [])]) g2 =
      none := by
    rw [alookup_append_left _ _ _ _ (Ne.symm hne)]
    exact hg2
  have h2 : (n.GetOrCreateSubgraph g).1.GetOrCreateSubgraph g2 =
      (Subgraph.node n.save_mode_on n.weight_to_pre_packs
        ((n.subgraph_prepacks ++ [(g, Subgraph.node n.save_mode_on [] [])]) ++
          [(g2, Subgraph.node n.save_mode_on [] [])]),
       Subgraph.node n.save_mode_on [] []) := by
    rw [h1]
    simp [Subgraph.GetOrCreateSubgraph, hacc, hsm, hwt, hlk2]
  refine ⟨?_, ?_, ?_, ?_, ?_, ?_, ?_⟩
  · intro m gr
    cases h : alookup m.subgraph_prepacks gr with
    | some c => simp [Subgraph.GetOrCreateSubgraph, h]
    | none =>
        simp only [Subgraph.GetOrCreateSubgraph, h]
        simp only [hacc, hsm]
        rw [alookup_append_right _ _ _ h]
  · rw [h1]
  · rw [h2, h1, hacc]
    rw [alookup_append_left _ _ _ _ hne]
    exact alookup_append_right _ _ _ hg
  · rw [h2, hacc]
    exact alookup_append_right _ _ _ hlk2
  · rw [h2]
  · intro b
    have : (n.SetSaveMode b).GetOrCreateSubgraph g =
        (Subgraph.node b n.weight_to_pre_packs
          (n.subgraph_prepacks ++ [(g, Subgraph.node b [] [])]),
         Subgraph.node b [] []) := by
      simp [Subgraph.GetOrCreateSubgraph, Subgraph.SetSaveMode, hacc, hsm, hwt, hg]
    rw [this]
  · intro b
    rw [h1]
    simp [Subgraph.SetSaveMode, hacc]

/-- C8 witness: the theorem instantiated on a fresh node with identities 1
and 2. -/
theorem getOrCreateSubgraph_spec_witness :
    ((1 : Nat) ≠ 2) ∧
    ((Subgraph.node true [] []).GetOrCreateSubgraph 1).2 = Subgraph.node true [] [] :=
  ⟨by decide,
   (getOrCreateSubgraph_spec (Subgraph.node true [] []) 1 2 rfl rfl (by decide)).2.1⟩

/-- Error results of `ExternalDataInfo::Create`: `modelFormat` embeds the
"model format error" statuses (tensor_external_data_info.cc lines 42, 44, 85
and 90), `parseFail s` embeds the "parsing s failed" statuses (lines 29 and
53, also reached through lines 74-75), and `narrow` embeds the exception
thrown by `onnxruntime::narrow<size_t>` when the parsed value does not fit a
`size_t` (lines 51 and 76; with unbounded integers this is exactly a negative
value). -/
inductive CreateError : Type where
  | modelFormat : CreateError
  | parseFail : String → CreateError
  | narrow : CreateError
deriving DecidableEq

/-- Decimal value of a list of digit characters, most significant first. -/
def digitsVal (ds : List Char) : Nat :=
  ds.foldl (fun a c => 10 * a + (c.toNat - '0'.toNat)) 0

/-- Modelled from the spec: the platform integer-parse helper
(`OrtStrToPtrDiff` / `_strtoi64`, declared outside the shown sources) is a
strtol-family decimal-integer parse into the signed `OFFSET_TYPE`.  Returns
the parsed value together with the number of characters consumed (the offset
of the C `end` pointer): an optional sign followed by a maximal run of
decimal digits; when no digit follows, nothing is consumed and the value
is 0. -/
def strtolRaw (s : List Char) : Int × Nat :=
  if s.headD ' ' = '-' then
    let ds := (s.drop 1).takeWhile Char.isDigit
    if ds = [] then (0, 0) else (-(digitsVal ds : Int), 1 + ds.length)
  else if s.headD ' ' = '+' then
    let ds := (s.drop 1).takeWhile Char.isDigit
    if ds = [] then (0, 0) else ((digitsVal ds : Int), 1 + ds.length)
  else
    let ds := s.takeWhile Char.isDigit
    if ds = [] then (0, 0) else ((digitsVal ds : Int), ds.length)

/-- Embeds the local lambda `str_to_int` (tensor_external_data_info.cc lines
21-32): run the strtol-family parse and fail with "parsing s failed" unless
the end pointer consumed the entire string. -/
def str_to_int (s : String) : Except CreateError Int :=
  let r := strtolRaw s.data
  if r.2 = s.data.length then Except.ok r.1 else Except.error (CreateError.parseFail s)

/-- Embeds `ExternalDataInfo` (tensor_external_data_info.h lines 52-62) with
its default field values; `PrepackedInfos` is embedded as an association list
from key prefix to the ordered list of (offset, length, checksum) triples. -/
structure ExternalDataInfo where
  rel_path : String
  offset : Int
  length : Nat
  checksum : String
  prepacked_infos : List (String × List (Int × Nat × String))
deriving DecidableEq

/-- Default-constructed `ExternalDataInfo` (line 34 of the .cc file). -/
def ExternalDataInfo.initState : ExternalDataInfo :=
  ⟨"", 0, 0, "", []⟩

/-- Modelled from the spec: `utils::SplitString(s, delim, false)`
(core/common/string_utils.h, outside the shown sources) splits on the
delimiter; the third argument `keep_empty = false` drops empty segments. -/
def splitDrop (d : Char) (s : List Char) : List (List Char) :=
  (s.splitOn d).filter (fun seg => seg ≠ [])

/-- Embeds the per-segment body of the `prepacked*` loop (.cc lines 70-77):
a segment splitting on `;` into exactly three fields yields a triple after
the two strict integer parses and the `narrow<size_t>` conversion of the
length; a segment with any other field count is dropped silently (`none`). -/
def parseTripleOpt (seg : List Char) : Except CreateError (Option (Int × Nat × String)) :=
  match splitDrop ';' seg with
  | [f0, f1, f2] => do
      let o ← str_to_int (String.mk f0)
      let l ← str_to_int (String.mk f1)
      if l < 0 then Except.error CreateError.narrow
      else Except.ok (some (o, l.toNat, String.mk f2))
  | _ => Except.ok none

/-- The `prepacked*` segment loop (.cc lines 69-78): parse the segments in
order, keeping the valid triples and propagating the first integer-parse
failure. -/
def collectTriples : List (List Char) → Except CreateError (List (Int × Nat × String))
  | [] => Except.ok []
  | seg :: rest => do
      let t ← parseTripleOpt seg
      let ts ← collectTriples rest
      Except.ok (match t with | some tr => tr :: ts | none => ts)

/-- Embeds the `prepacked*` branch of the loop (.cc lines 56-83): an empty
value does nothing; otherwise split on `|`; only when more than one segment
results, take the first segment as the key prefix (`operator[]` creating its
entry), append the valid triples of the remaining segments, and erase the
key again when its list ends up empty. -/
def prepackedStep (st : ExternalDataInfo) (v : String) :
    Except CreateError ExternalDataInfo :=
  if v = "" then Except.ok st
  else
    let segs := splitDrop '|' v.data
    if 1 < segs.length then
      let key := String.mk (segs.headD [])
      let cur := (alookup st.prepacked_infos key).getD []
      match collectTriples (segs.drop 1) with
      | Except.error e => Except.error e
      | Except.ok ts =>
          if cur ++ ts = [] then
            Except.ok { st with prepacked_infos := aerase st.prepacked_infos key }
          else
            Except.ok { st with prepacked_infos := aupsert st.prepacked_infos key (cur ++ ts) }
    else Except.ok st

/-- Embeds one iteration of the loop of `ExternalDataInfo::Create` (.cc
lines 39-87).  The protobuf `has_key`/`has_value` presence checks (lines
41-44) concern protobuf field presence, outside this subsystem's scope:
entries are embedded as present (key, value) string pairs.  `ToWideString`
(line 46) is the identity on the value here. -/
def processEntry (st : ExternalDataInfo) (kv : String × String) :
    Except CreateError ExternalDataInfo :=
  if kv.1 = "location" ∧ kv.2 ≠ "" then
    Except.ok { st with rel_path := kv.2 }
  else if kv.1 = "offset" ∧ kv.2 ≠ "" then do
    let r ← str_to_int kv.2
    Except.ok { st with offset := r }
  else if kv.1 = "length" ∧ kv.2 ≠ "" then
    let r := strtolRaw kv.2.data
    if r.1 < 0 then Except.error CreateError.narrow
    else if r.2 ≠ kv.2.data.length then Except.error (CreateError.parseFail kv.2)
    else Except.ok { st with length := r.1.toNat }
  else if kv.1 = "checksum" ∧ kv.2 ≠ "" then
    Except.ok { st with checksum := kv.2 }
  else if "prepacked".data.isPrefixOf kv.1.data then
    prepackedStep st kv.2
  else Except.error CreateError.modelFormat

/-- Embeds `ExternalDataInfo::Create` (.cc lines 19-98): process the entries
in order, then fail with a ModelFormatError when `location` is still empty
(lines 89-91); the conditional move of the collected prepacked infos (lines
93-95) is the identity in this embedding. -/
def ExternalDataInfo.create (input : List (String × String)) :
    Except CreateError ExternalDataInfo := do
  let st ← input.foldlM processEntry ExternalDataInfo.initState
  if st.rel_path = "" then Except.error CreateError.modelFormat
  else Except.ok st

theorem prepacked_key_skips_core (pk : String)
    (hp : "prepacked".data.isPrefixOf pk.data = true) :
    pk ≠ "location" ∧ pk ≠ "offset" ∧ pk ≠ "length" ∧ pk ≠ "checksum" := by
  refine ⟨?_, ?_, ?_, ?_⟩ <;> intro h <;> rw [h] at hp <;> exact absurd hp (by decide)

theorem processEntry_prepacked (st : ExternalDataInfo) (pk v : String)
    (hp : "prepacked".data.isPrefixOf pk.data = true) :
    processEntry st (pk, v) = prepackedStep st v := by
  obtain ⟨h1, h2, h3, h4⟩ := prepacked_key_skips_core pk hp
  simp only [processEntry]
  rw [if_neg (fun hc => h1 hc.1), if_neg (fun hc => h2 hc.1),
    if_neg (fun hc => h3 hc.1), if_neg (fun hc => h4 hc.1), if_pos hp]

/-- C4 counterexample: an `offset` entry with an empty value is not silently
skipped; `Create` fails with a ModelFormatError at that entry (the claim
predicts success with the field left unset). -/
theorem emptyValue_counterexample :
    ExternalDataInfo.create [("location", "w"), ("offset", "")] =
      Except.error CreateError.modelFormat := rfl

/-- C4 amended: an entry whose key is `location`, `offset`, `length` or
`checksum` but whose value is empty falls through to the unrecognized-key
branch and fails with a ModelFormatError; only a `prepacked*` entry with an
empty value is silently skipped; and an input whose `location` is absent at
the end fails with a ModelFormatError. -/
theorem emptyValue_spec (st : ExternalDataInfo) :
    processEntry st ("location", "") = Except.error CreateError.modelFormat ∧
    processEntry st ("offset", "") = Except.error CreateError.modelFormat ∧
    processEntry st ("length", "") = Except.error CreateError.modelFormat ∧
    processEntry st ("checksum", "") = Except.error CreateError.modelFormat ∧
    (∀ pk : String, "prepacked".data.isPrefixOf pk.data = true →
      processEntry st (pk, "") = Except.ok st) ∧
    ExternalDataInfo.create [("offset", "100")] = Except.error CreateError.modelFormat := by
  refine ⟨rfl, rfl, rfl, rfl, ?_, rfl⟩
  intro pk hp
  rw [processEntry_prepacked st pk "" hp]
  rfl

/-- C4 witness: the amended theorem instantiated on the initial descriptor
state and the key "prepacked9". -/
theorem emptyValue_spec_witness :
    ("prepacked".data.isPrefixOf "prepacked9".data = true) ∧
    processEntry ExternalDataInfo.initState ("prepacked9", "") =
      Except.ok ExternalDataInfo.initState :=
  ⟨by decide, (emptyValue_spec ExternalDataInfo.initState).2.2.2.2.1 "prepacked9" (by decide)⟩

theorem processEntry_offset (st : ExternalDataInfo) (v : String) (hv : v ≠ "") :
    processEntry st ("offset", v) =
      (str_to_int v).bind (fun r => Except.ok { st with offset := r }) := by
  simp only [processEntry]
  rw [if_neg (fun hc => absurd hc.1 (by decide)), if_pos ⟨True.intro, hv⟩]
  rfl

theorem processEntry_length (st : ExternalDataInfo) (v : String) (hv : v ≠ "") :
    processEntry st ("length", v) =
      (if (strtolRaw v.data).1 < 0 then Except.error CreateError.narrow
       else if (strtolRaw v.data).2 ≠ v.data.length then
         Except.error (CreateError.parseFail v)
       else Except.ok { st with length := (strtolRaw v.data).1.toNat }) := by
  simp only [processEntry]
  rw [if_neg (fun hc => absurd hc.1 (by decide)), if_neg (fun hc => absurd hc.1 (by decide)),
    if_pos ⟨True.intro, hv⟩]

/-- C6 counterexample: the `length` value "-1x" does not consume the whole
string under the strict integer parse, yet `Create` fails with the narrowing
error thrown before the end-pointer check, not with the ParseError the claim
requires. -/
theorem strict_int_parse_counterexample :
    ExternalDataInfo.create [("location", "w"), ("length", "-1x")] =
      Except.error CreateError.narrow ∧
    (∀ s : String, CreateError.narrow ≠ CreateError.parseFail s) :=
  ⟨rfl, fun _ h => CreateError.noConfusion h⟩

/-- C6 amended: for a non-empty `offset` value the strict decimal parse must
consume the whole string, otherwise the field fails with a ParseError; the
same holds for a non-empty `length` value whose parsed prefix is
non-negative, while a `length` value with a negative parsed prefix fails
with the narrowing error before the full-consumption check. -/
theorem strict_int_parse_spec (st : ExternalDataInfo) (v : String) (hv : v ≠ "") :
    ((strtolRaw v.data).2 = v.data.length →
      processEntry st ("offset", v) = Except.ok { st with offset := (strtolRaw v.data).1 }) ∧
    ((strtolRaw v.data).2 ≠ v.data.length →
      processEntry st ("offset", v) = Except.error (CreateError.parseFail v)) ∧
    (0 ≤ (strtolRaw v.data).1 → (strtolRaw v.data).2 ≠ v.data.length →
      processEntry st ("length", v) = Except.error (CreateError.parseFail v)) ∧
    ((strtolRaw v.data).1 < 0 →
      processEntry st ("length", v) = Except.error CreateError.narrow) ∧
    (0 ≤ (strtolRaw v.data).1 → (strtolRaw v.data).2 = v.data.length →
      processEntry st ("length", v) =
        Except.ok { st with length := (strtolRaw v.data).1.toNat }) := by
  refine ⟨?_, ?_, ?_, ?_, ?_⟩
  · intro h
    rw [processEntry_offset st v hv]
    simp only [str_to_int]
    rw [if_pos h]
    rfl
  · intro h
    rw [processEntry_offset st v hv]
    simp only [str_to_int]
    rw [if_neg h]
    rfl
  · intro h0 h
    rw [processEntry_length st v hv, if_neg (not_lt.mpr h0), if_pos h]
  · intro h0
    rw [processEntry_length st v hv, if_pos h0]
  · intro h0 h
    rw [processEntry_length st v hv, if_neg (not_lt.mpr h0), if_neg (by simp [h])]

/-- C6 witness: the spec's example `offset="10x"` fails with the ParseError. -/
theorem strict_int_parse_spec_witness :
    ("10x" ≠ "") ∧ ((strtolRaw "10x".data).2 ≠ "10x".data.length) ∧
    processEntry ExternalDataInfo.initState ("offset", "10x") =
      Except.error (CreateError.parseFail "10x") :=
  ⟨by decide, by decide,
   (strict_int_parse_spec ExternalDataInfo.initState "10x" (by decide)).2.1 (by decide)⟩

theorem parseTripleOpt_not3 (seg : List Char)
    (h : (splitDrop ';' seg).length ≠ 3) : parseTripleOpt seg = Except.ok none := by
  unfold parseTripleOpt
  rcases hs : splitDrop ';' seg with _ | ⟨f0, _ | ⟨f1, _ | ⟨f2, _ | ⟨f3, t⟩⟩⟩⟩
  · rfl
  · rfl
  · rfl
  · exact absurd (by rw [hs]; rfl) h
  · rfl

theorem collectTriples_none (segs : List (List Char))
    (h : ∀ seg ∈ segs, parseTripleOpt seg = Except.ok none) :
    collectTriples segs = Except.ok [] := by
  induction segs with
  | nil => rfl
  | cons s rest ih =>
      simp only [collectTriples]
      rw [h s (List.mem_cons_self s rest),
        ih (fun seg hm => h seg (List.mem_cons_of_mem _ hm))]
      rfl

theorem aerase_of_none {β : Type} (m : List (String × β)) (k : String)
    (h : alookup m k = none) : aerase m k = m := by
  rw [aerase, List.filter_eq_self]
  intro p hp
  simp only [ne_eq, decide_eq_true_eq]
  intro he
  exact (alookup_eq_none_iff m k).mp h (he ▸ List.mem_map_of_mem Prod.fst hp)

/-- C3 amended: a `prepacked*` segment that does not split into exactly three
`;`-fields is dropped silently (never an error), and a key prefix left with
zero valid triples is omitted from the result; in particular the spec example
`prepacked0="mk|bad"` succeeds with no entry for "mk".  However (see the
counterexample) a segment that does split into three fields but whose offset
or length sub-field fails the strict integer parse aborts `Create` with an
error. -/
theorem prepacked_malformed_spec (st : ExternalDataInfo) (pk v : String)
    (hp : "prepacked".data.isPrefixOf pk.data = true)
    (hmal : ∀ seg ∈ (splitDrop '|' v.data).drop 1, (splitDrop ';' seg).length ≠ 3)
    (habs : alookup st.prepacked_infos
      (String.mk ((splitDrop '|' v.data).headD [])) = none) :
    processEntry st (pk, v) = Except.ok st ∧
    ExternalDataInfo.create [("location", "weights.bin"), ("prepacked0", "mk|bad")] =
      Except.ok ⟨"weights.bin", 0, 0, "", []⟩ := by
  refine ⟨?_, rfl⟩
  rw [processEntry_prepacked st pk v hp]
  by_cases hv : v = ""
  · rw [prepackedStep, if_pos hv]
  · simp only [prepackedStep, if_neg hv]
    by_cases hlen : 1 < (splitDrop '|' v.data).length
    · rw [if_pos hlen]
      rw [collectTriples_none _ (fun seg hm => parseTripleOpt_not3 seg (hmal seg hm))]
      rw [habs]
      simp only [Option.getD_none, List.nil_append, List.append_nil, if_pos rfl]
      rw [aerase_of_none _ _ habs]
      simp
    · rw [if_neg hlen]

/-- C3 counterexample: the malformed segment "1x;2;c" inside a `prepacked*`
value has three `;`-fields, so its offset sub-field "1x" reaches the strict
integer parse and `Create` fails instead of dropping the segment. -/
theorem prepacked_malformed_counterexample :
    ExternalDataInfo.create [("location", "w"), ("prepacked0", "mk|1x;2;c")] =
      Except.error (CreateError.parseFail "1x") := rfl

/-- C3 witness: the amended theorem instantiated on the spec's own example
entry `prepacked0="mk|bad"`. -/
theorem prepacked_malformed_spec_witness :
    processEntry ExternalDataInfo.initState ("prepacked0", "mk|bad") =
      Except.ok ExternalDataInfo.initState :=
  (prepacked_malformed_spec ExternalDataInfo.initState "prepacked0" "mk|bad"
    (by decide) (by decide) rfl).1

/-- Well-formed micro-format triple in the sense of the spec's grammar
`KEY|OFF;LEN;CKSUM[|OFF;LEN;CKSUM...]`: nonempty decimal digit strings for
offset and length and a nonempty checksum free of both delimiters. -/
def wfTriple (t : List Char × List Char × List Char) : Prop :=
  (t.1 ≠ [] ∧ ∀ c ∈ t.1, c.isDigit = true) ∧
  (t.2.1 ≠ [] ∧ ∀ c ∈ t.2.1, c.isDigit = true) ∧
  (t.2.2 ≠ [] ∧ ';' ∉ t.2.2 ∧ '|' ∉ t.2.2)

instance : DecidablePred wfTriple := fun t => by
  unfold wfTriple
  infer_instance

/-- Text of one well-formed segment `OFF;LEN;CKSUM`. -/
def wfSegment (t : List Char × List Char × List Char) : List Char :=
  [';'].intercalate [t.1, t.2.1, t.2.2]

/-- The (offset, length, checksum) value triple denoted by a well-formed
segment. -/
def parsedTriple (t : List Char × List Char × List Char) : Int × Nat × String :=
  ((digitsVal t.1 : Int), digitsVal t.2.1, String.mk t.2.2)

/-- Text of a whole well-formed `prepacked*` value `KEY|SEG[|SEG...]`. -/
def wfValue (key : List Char) (ts : List (List Char × List Char × List Char)) : String :=
  String.mk (['|'].intercalate (key :: ts.map wfSegment))

theorem intercalate_three (x : Char) (a b c : List Char) :
    [x].intercalate [a, b, c] = a ++ x :: (b ++ x :: c) := by
  simp [List.intercalate, List.intersperse]

theorem digits_not_mem (l : List Char) (h : ∀ c ∈ l, c.isDigit = true) (x : Char)
    (hx : x.isDigit = false) : x ∉ l := by
  intro hm
  rw [h x hm] at hx
  exact Bool.noConfusion hx

theorem strtolRaw_digits (ds : List Char) (h1 : ds ≠ [])
    (h2 : ∀ c ∈ ds, c.isDigit = true) :
    strtolRaw ds = ((digitsVal ds : Int), ds.length) := by
  have hhead : ds.headD ' ' ≠ '-' ∧ ds.headD ' ' ≠ '+' := by
    cases ds with
    | nil => exact absurd rfl h1
    | cons c t =>
        refine ⟨?_, ?_⟩ <;> intro he <;> rw [List.headD_cons] at he <;> rw [he] at h2 <;>
          exact absurd (h2 _ (List.mem_cons_self _ _)) (by decide)
  have htw : ds.takeWhile Char.isDigit = ds := List.takeWhile_eq_self_iff.mpr h2
  simp only [strtolRaw, if_neg hhead.1, if_neg hhead.2, htw, if_neg h1]

theorem str_to_int_digits (ds : List Char) (h1 : ds ≠ [])
    (h2 : ∀ c ∈ ds, c.isDigit = true) :
    str_to_int (String.mk ds) = Except.ok ((digitsVal ds : Int)) := by
  simp only [str_to_int, strtolRaw_digits ds h1 h2]
  rfl

theorem splitDrop_intercalate (d : Char) (parts : List (List Char))
    (hne : parts ≠ []) (hnemp : ∀ l ∈ parts, l ≠ []) (hd : ∀ l ∈ parts, d ∉ l) :
    splitDrop d ([d].intercalate parts) = parts := by
  rw [splitDrop, List.splitOn_intercalate parts d hd hne]
  rw [List.filter_eq_self]
  intro a ha
  simp only [ne_eq, decide_eq_true_eq]
  exact hnemp a ha

theorem wfSegment_ne_nil (t : List Char × List Char × List Char) :
    wfSegment t ≠ [] := by
  rw [wfSegment, intercalate_three]
  intro h
  rcases List.append_eq_nil.mp h with ⟨_, h2⟩
  exact List.cons_ne_nil _ _ h2

theorem not_mem_wfSegment (t : List Char × List Char × List Char) (x : Char)
    (hx1 : x ∉ t.1) (hx2 : x ∉ t.2.1) (hx3 : x ∉ t.2.2) (hxs : x ≠ ';') :
    x ∉ wfSegment t := by
  rw [wfSegment, intercalate_three]
  intro hm
  rcases List.mem_append.mp hm with h | h
  · exact hx1 h
  · rcases List.mem_cons.mp h with h' | h'
    · exact hxs h'
    · rcases List.mem_append.mp h' with h2 | h2
      · exact hx2 h2
      · rcases List.mem_cons.mp h2 with h3 | h3
        · exact hxs h3
        · exact hx3 h3

theorem exceptOk_bind {α β : Type} (a : α) (f : α → Except CreateError β) :
    (Except.ok a : Except CreateError α) >>= f = f a := rfl

theorem parseTripleOpt_wf (t : List Char × List Char × List Char) (hw : wfTriple t) :
    parseTripleOpt (wfSegment t) = Except.ok (some (parsedTriple t)) := by
  obtain ⟨⟨ho1, ho2⟩, ⟨hl1, hl2⟩, hc1, hc2, hc3⟩ := hw
  have hsplit : splitDrop ';' (wfSegment t) = [t.1, t.2.1, t.2.2] := by
    rw [wfSegment]
    refine splitDrop_intercalate ';' [t.1, t.2.1, t.2.2] (by simp) ?_ ?_
    · intro l hl
      simp only [List.mem_cons, List.not_mem_nil, or_false] at hl
      rcases hl with rfl | rfl | rfl
      · exact ho1
      · exact hl1
      · exact hc1
    · intro l hl
      simp only [List.mem_cons, List.not_mem_nil, or_false] at hl
      rcases hl with rfl | rfl | rfl
      · exact digits_not_mem _ ho2 ';' (by decide)
      · exact digits_not_mem _ hl2 ';' (by decide)
      · exact hc2
  simp only [parseTripleOpt, hsplit]
  rw [str_to_int_digits _ ho1 ho2, str_to_int_digits _ hl1 hl2]
  rw [exceptOk_bind, exceptOk_bind]
  rw [if_neg (not_lt.mpr (Int.natCast_nonneg _))]
  simp [parsedTriple]

theorem collectTriples_wf (ts : List (List Char × List Char × List Char))
    (h : ∀ t ∈ ts, wfTriple t) :
    collectTriples (ts.map wfSegment) = Except.ok (ts.map parsedTriple) := by
  induction ts with
  | nil => rfl
  | cons t rest ih =>
      simp only [List.map_cons, collectTriples]
      rw [parseTripleOpt_wf t (h t (List.mem_cons_self t rest)),
        ih (fun u hu => h u (List.mem_cons_of_mem _ hu))]
      rfl

theorem processEntry_prepacked_wf (st : ExternalDataInfo) (pk : String)
    (key : List Char) (ts : List (List Char × List Char × List Char))
    (hp : "prepacked".data.isPrefixOf pk.data = true)
    (hkey : key ≠ []) (hkeyp : '|' ∉ key) (hts : ts ≠ [])
    (hwf : ∀ t ∈ ts, wfTriple t) :
    processEntry st (pk, wfValue key ts) =
      Except.ok { st with prepacked_infos :=
        (aupsert st.prepacked_infos (String.mk key)
          (((alookup st.prepacked_infos (String.mk key)).getD []) ++
            ts.map parsedTriple)) } := by
  have hdata : (wfValue key ts).data = ['|'].intercalate (key :: ts.map wfSegment) := rfl
  have hsplit : splitDrop '|' (wfValue key ts).data = key :: ts.map wfSegment := by
    rw [hdata]
    refine splitDrop_intercalate '|' (key :: ts.map wfSegment) (List.cons_ne_nil _ _) ?_ ?_
    · intro l hl
      rcases List.mem_cons.mp hl with rfl | hl
      · exact hkey
      · obtain ⟨t, _, rfl⟩ := List.mem_map.mp hl
        exact wfSegment_ne_nil t
    · intro l hl
      rcases List.mem_cons.mp hl with rfl | hl
      · exact hkeyp
      · obtain ⟨t, ht, rfl⟩ := List.mem_map.mp hl
        obtain ⟨⟨_, ho2⟩, ⟨_, hl2⟩, _, _, hc3⟩ := hwf t ht
        exact not_mem_wfSegment t '|' (digits_not_mem _ ho2 '|' (by decide))
          (digits_not_mem _ hl2 '|' (by decide)) hc3 (by decide)
  have hvne : wfValue key ts ≠ "" := by
    intro h
    rw [h] at hsplit
    have h0 : ([] : List (List Char)) = key :: ts.map wfSegment := hsplit
    exact List.noConfusion h0
  have hmapne : ts.map wfSegment ≠ [] := by
    intro h
    exact hts (List.map_eq_nil_iff.mp h)
  have hlen : 1 < (key :: ts.map wfSegment).length := by
    have h0 : 0 < (ts.map wfSegment).length := List.length_pos.mpr hmapne
    simp only [List.length_cons]
    omega
  rw [processEntry_prepacked _ _ _ hp]
  simp only [prepackedStep, if_neg hvne, hsplit]
  rw [if_pos hlen]
  simp only [List.headD_cons, List.drop_succ_cons, List.drop_zero]
  simp only [collectTriples_wf ts hwf]
  have hresne : ((alookup st.prepacked_infos (String.mk key)).getD []) ++
      ts.map parsedTriple ≠ [] := by
    intro h
    rcases List.append_eq_nil.mp h with ⟨_, h2⟩
    exact hts (List.map_eq_nil_iff.mp h2)
  rw [if_neg hresne]

theorem processEntry_location (st : ExternalDataInfo) (v : String) (hv : v ≠ "") :
    processEntry st ("location", v) = Except.ok { st with rel_path := v } := by
  simp only [processEntry]
  rw [if_pos ⟨True.intro, hv⟩]

/-- C5: for every well-formed `prepacked*` value `KEY|OFF;LEN;CKSUM[|...]`,
`Create` yields, under the key prefix, exactly the ordered list of
(offset, length, checksum) triples of the `;`-separated segments. -/
theorem create_prepacked_wf (loc pk : String) (key : List Char)
    (ts : List (List Char × List Char × List Char))
    (hloc : loc ≠ "") (hp : "prepacked".data.isPrefixOf pk.data = true)
    (hkey : key ≠ []) (hkeyp : '|' ∉ key) (hts : ts ≠ [])
    (hwf : ∀ t ∈ ts, wfTriple t) :
    ExternalDataInfo.create [("location", loc), (pk, wfValue key ts)] =
      Except.ok ⟨loc, 0, 0, "", [(String.mk key, ts.map parsedTriple)]⟩ := by
  have h1 : processEntry ExternalDataInfo.initState ("location", loc) =
      Except.ok ⟨loc, 0, 0, "", []⟩ := processEntry_location _ loc hloc
  have h2 := processEntry_prepacked_wf ⟨loc, 0, 0, "", []⟩ pk key ts hp hkey hkeyp hts hwf
  simp only [alookup, Option.getD_none, List.nil_append] at h2
  simp only [ExternalDataInfo.create, List.foldlM, bind, Except.bind, pure, Except.pure, h1, h2]
  rw [if_neg (fun hc : loc = "" => hloc hc)]
  rfl

/-- C5 witness: the spec's example value `mk|10;20;abc|30;40;def` parses to
the map sending "mk" to [(10, 20, "abc"), (30, 40, "def")]. -/
theorem create_prepacked_wf_witness :
    ExternalDataInfo.create [("location", "weights.bin"),
        ("prepacked0", "mk|10;20;abc|30;40;def")] =
      Except.ok ⟨"weights.bin", 0, 0, "",
        [("mk", [((10 : Int), 20, "abc"), ((30 : Int), 40, "def")])]⟩ := by
  have h := create_prepacked_wf "weights.bin" "prepacked0" "mk".data
    [("10".data, "20".data, "abc".data), ("30".data, "40".data, "def".data)]
    (by decide) (by decide) (by decide) (by decide) (by decide) (by decide)
  exact h

/-- C10: a `prepacked*` value carries hints exactly when splitting it on `|`
yields more than one segment (with at most one segment the state is returned
unchanged); the valid triples of a value are appended onto whatever list its
key prefix already holds, never replacing it; consequently several
`prepacked*` entries carrying the same key prefix accumulate their triples
into one list, in input order. -/
theorem prepacked_accumulate_spec (st : ExternalDataInfo) (pk : String)
    (hp : "prepacked".data.isPrefixOf pk.data = true) :
    (∀ v : String, (splitDrop '|' v.data).length ≤ 1 →
      processEntry st (pk, v) = Except.ok st) ∧
    (∀ (key : List Char) (ts : List (List Char × List Char × List Char))
        (cur : List (Int × Nat × String)),
      key ≠ [] → '|' ∉ key → ts ≠ [] → (∀ t ∈ ts, wfTriple t) →
      alookup st.prepacked_infos (String.mk key) = some cur →
      processEntry st (pk, wfValue key ts) =
        Except.ok { st with prepacked_infos :=
          (aupsert st.prepacked_infos (String.mk key) (cur ++ ts.map parsedTriple)) }) ∧
    (∀ (loc pk2 : String) (key : List Char)
        (ts1 ts2 : List (List Char × List Char × List Char)),
      loc ≠ "" → "prepacked".data.isPrefixOf pk2.data = true →
      key ≠ [] → '|' ∉ key → ts1 ≠ [] → ts2 ≠ [] →
      (∀ t ∈ ts1, wfTriple t) → (∀ t ∈ ts2, wfTriple t) →
      ExternalDataInfo.create
          [("location", loc), (pk, wfValue key ts1), (pk2, wfValue key ts2)] =
        Except.ok ⟨loc, 0, 0, "",
          [(String.mk key, ts1.map parsedTriple ++ ts2.map parsedTriple)]⟩) := by
  refine ⟨?_, ?_, ?_⟩
  · intro v hle
    rw [processEntry_prepacked st pk v hp]
    by_cases hv : v = ""
    · rw [prepackedStep, if_pos hv]
    · simp only [prepackedStep, if_neg hv]
      rw [if_neg (not_lt.mpr hle)]
  · intro key ts cur hkey hkeyp hts hwf halook
    have h := processEntry_prepacked_wf st pk key ts hp hkey hkeyp hts hwf
    rw [halook] at h
    simpa using h
  · intro loc pk2 key ts1 ts2 hloc hp2 hkey hkeyp hts1 hts2 hwf1 hwf2
    have h1 : processEntry ExternalDataInfo.initState ("location", loc) =
        Except.ok ⟨loc, 0, 0, "", []⟩ := processEntry_location _ loc hloc
    have h2 := processEntry_prepacked_wf ⟨loc, 0, 0, "", []⟩ pk key ts1 hp hkey hkeyp hts1 hwf1
    simp only [alookup, Option.getD_none, List.nil_append, aupsert] at h2
    have h3 := processEntry_prepacked_wf ⟨loc, 0, 0, "", [(String.mk key, ts1.map parsedTriple)]⟩
      pk2 key ts2 hp2 hkey hkeyp hts2 hwf2
    simp [alookup, aupsert] at h3
    simp only [ExternalDataInfo.create, List.foldlM, bind, Except.bind, pure, Except.pure,
      h1, h2, h3]
    rw [if_neg (fun hc : loc = "" => hloc hc)]

/-- C10 witness: two `prepacked*` entries with the same key prefix "mk"
accumulate their triples in input order. -/
theorem prepacked_accumulate_spec_witness :
    ExternalDataInfo.create
        [("location", "w"), ("prepacked0", "mk|1;2;c"), ("prepacked1", "mk|3;4;d")] =
      Except.ok ⟨"w", 0, 0, "", [("mk", [((1 : Int), 2, "c"), ((3 : Int), 4, "d")])]⟩ := by
  have h := (prepacked_accumulate_spec ExternalDataInfo.initState "prepacked0"
      (by decide)).2.2 "w" "prepacked1" "mk".data
    [("1".data, "2".data, "c".data)] [("3".data, "4".data, "d".data)]
    (by decide) (by decide) (by decide) (by decide) (by decide) (by decide)
    (by decide) (by decide)
  exact h
